import Mathlib

/-!
# Verification of the rppal GPIO module

A shallow embedding of `src/gpio.rs` (the `Gpio` facade, its single-instance
arbitration via `GPIO_INSTANCED`, the per-line checkout registry `PINS_TAKEN`,
and the `Mode`/`Level`/`PullUpDown`/`Trigger` data model), together with
models of the pin, register-map and interrupt submodules that the crate
declares (`mod pin; mod mem; mod interrupt;`) but whose sources are not part
of this tree; those are modelled from the specification and are marked as
such in their doc comments.
-/

namespace Rppal

/-- Pin modes, from `gpio.rs`: `#[repr(u8)] pub enum Mode` with the
    explicit 3-bit discriminants `Input = 0b000, Output = 0b001, Alt5 = 0b010,
    Alt4 = 0b011, Alt0 = 0b100, Alt1 = 0b101, Alt2 = 0b110, Alt3 = 0b111`. -/
inductive Mode where
  | Input
  | Output
  | Alt5
  | Alt4
  | Alt0
  | Alt1
  | Alt2
  | Alt3
deriving DecidableEq, Repr

/-- The `u8` discriminant of each `Mode` variant, exactly as written in the
    `#[repr(u8)]` enum in `gpio.rs`. -/
def Mode.bits : Mode → Nat
  | .Input => 0b000
  | .Output => 0b001
  | .Alt5 => 0b010
  | .Alt4 => 0b011
  | .Alt0 => 0b100
  | .Alt1 => 0b101
  | .Alt2 => 0b110
  | .Alt3 => 0b111

/-- Modelled from the spec: the decoding of a 3-bit function-select field back
    into a `Mode` (the register-map module `mem.rs` is declared by the crate
    but not part of this tree). The spec fixes it to be the inverse of the
    encoding: "each of the eight Mode variants has a distinct 3-bit encoding,
    so decode after encode is the identity". -/
def Mode.ofBits : Nat → Mode
  | 0b000 => .Input
  | 0b001 => .Output
  | 0b010 => .Alt5
  | 0b011 => .Alt4
  | 0b100 => .Alt0
  | 0b101 => .Alt1
  | 0b110 => .Alt2
  | 0b111 => .Alt3
  | _ => .Input

/-- Pin logic levels, from `gpio.rs`: `pub enum Level { Low = 0, High = 1 }`. -/
inductive Level where
  | Low
  | High
deriving DecidableEq, Repr

/-- Built-in pull-up/pull-down resistor states, from `gpio.rs`:
    `pub enum PullUpDown { Off = 0b00, PullDown = 0b01, PullUp = 0b10 }`. -/
inductive PullUpDown where
  | Off
  | PullDown
  | PullUp
deriving DecidableEq, Repr

/-- Interrupt trigger conditions, from `gpio.rs`:
    `pub enum Trigger { Disabled = 0, RisingEdge = 1, FallingEdge = 2, Both = 3 }`. -/
inductive Trigger where
  | Disabled
  | RisingEdge
  | FallingEdge
  | Both
deriving DecidableEq, Repr

/-- The error taxonomy of `gpio.rs` (`quick_error!` enum `Error`); the payload
    of `Io` is irrelevant to the claims and omitted. -/
inductive GError where
  | UnknownSoC
  | PermissionDenied
  | InstanceExists
  | Io
  | ThreadPanic
deriving DecidableEq, Repr

/-- Modelled from the spec: `pin::MAX`, the fixed maximum line count declared
    in the pin module (not part of this tree); per the spec the "valid range is
    fixed and known at startup (not configurable)". The concrete value is the
    BCM GPIO line count; no result below depends on it. -/
def pinMAX : Nat := 54

/-- The process-wide mutable state touched by `gpio.rs`:
    `GPIO_INSTANCED : AtomicBool` and `PINS_TAKEN : [AtomicBool; pin::MAX]`
    (only indices below `pinMAX` are ever accessed), together with the
    register-map and interrupt state of the modelled submodules:
    `fsel` maps a function-select register index to its packed word
    (3-bit fields, `linesPerReg` lines per word), `pull` is the per-line
    pull-resistor latch, and `armed` records which lines have an interrupt
    armed. -/
structure SysState where
  instanced : Bool
  pinsTaken : Nat → Bool
  fsel : Nat → Nat
  pull : Nat → PullUpDown
  armed : Nat → Bool

/-- The initial process state: no instance, no pin taken, registers cleared,
    pulls off, nothing armed. -/
def initSys : SysState :=
  { instanced := false
    pinsTaken := fun _ => false
    fsel := fun _ => 0
    pull := fun _ => .Off
    armed := fun _ => false }

/-- The fallible external stages of `Gpio::new`, in source order:
    `ioctl::find_driver()?`, `interrupt::EventLoop::new(..)?`,
    `mem::GpioMem::open()?`. Each is an opaque-collaborator call that either
    succeeds or fails with some error; `none` means success. -/
structure Env where
  driverErr : Option GError
  eventLoopErr : Option GError
  memErr : Option GError

/-- An `Env` in which all three device-opening stages succeed. -/
def Env.ok : Env := ⟨none, none, none⟩

/-- `Gpio::new` from `gpio.rs`, as a sequential state transformer.
    Source order: (1) if `GPIO_INSTANCED` is already set, return
    `Err(InstanceExists)`; (2) `ioctl::find_driver()?`; (3)
    `interrupt::EventLoop::new(cdev_fd, pin::MAX)?`; (4)
    `mem::GpioMem::open()?`; (5) build the `Gpio` value; (6) final
    `compare_and_swap(false, true)` on `GPIO_INSTANCED` — if it observes
    `true` the function returns `Err(InstanceExists)`, and the `return`
    drops the just-built `Gpio`, whose `Drop` impl stores `false` into
    `GPIO_INSTANCED` (this drop is faithfully modelled); otherwise the flag
    becomes `true` and the instance is returned. -/
def gpioNew (env : Env) (s : SysState) : Except GError Unit × SysState :=
  if s.instanced then (.error .InstanceExists, s)
  else
    match env.driverErr with
    | some e => (.error e, s)
    | none =>
      match env.eventLoopErr with
      | some e => (.error e, s)
      | none =>
        match env.memErr with
        | some e => (.error e, s)
        | none =>
          if s.instanced then
            (.error .InstanceExists, { s with instanced := false })
          else
            (.ok (), { s with instanced := true })

/-- `impl Drop for Gpio` from `gpio.rs`: stores `false` into `GPIO_INSTANCED`
    and touches nothing else (in particular `PINS_TAKEN` is deliberately kept,
    per the source comment "Continue to keep track of taken pins when Gpio
    goes out of scope"). -/
def gpioDrop (s : SysState) : SysState :=
  { s with instanced := false }

/-- The `Pin` handle as far as the claims need it: its BCM line number and
    its `clear_on_drop` flag (restore-on-release, default `true`). -/
structure PinHandle where
  line : Nat
  clearOnDrop : Bool
deriving DecidableEq, Repr

/-- `Gpio::get` from `gpio.rs`: returns `None` if `pin as usize >= pin::MAX`;
    otherwise performs `PINS_TAKEN[pin].compare_and_swap(false, true)` —
    if the line was already taken, returns `None` and changes nothing,
    else marks it taken and returns an owned `Pin` (whose `clear_on_drop`
    defaults to `true`). -/
def gpioGet (s : SysState) (pin : Nat) : Option PinHandle × SysState :=
  if pinMAX ≤ pin then (none, s)
  else if s.pinsTaken pin then (none, s)
  else
    (some ⟨pin, true⟩,
      { s with pinsTaken := fun i => if i = pin then true else s.pinsTaken i })

/-- Modelled from the spec: the number of 3-bit function-select fields packed
    into one register word ("stored as a 3-bit field per line, packed
    multiple-per-register"); ten lines per 32-bit GPFSEL word. -/
def linesPerReg : Nat := 10

/-- The index of the function-select register word holding a line's field. -/
def fselIndex (line : Nat) : Nat := line / linesPerReg

/-- The position (in 3-bit fields) of a line's field within its word. -/
def fselField (line : Nat) : Nat := line % linesPerReg

/-- Read the 3-bit field at position `k` of a packed word `w`. -/
def readField (w k : Nat) : Nat := w / 8 ^ k % 8

/-- Modelled from the spec: the read-modify-write of a 3-bit field inside a
    packed register word (`mem.rs` is declared by the crate but not part of
    this tree; the spec requires "a read-modify-write on the containing
    register word because multiple lines share bit-packed fields"). The
    masked form `(w AND NOT (0b111 << 3*k)) OR (b << 3*k)` is written here
    as base-8 digit replacement, with which it coincides for `b < 8`. -/
def writeField (w k b : Nat) : Nat :=
  w % 8 ^ k + b * 8 ^ k + w / 8 ^ (k + 1) * 8 ^ (k + 1)

/-- Modelled from the spec: `RegisterMap.write_mode(line, Mode)` — a
    read-modify-write of the line's 3-bit function-select field in its
    containing packed word. -/
def writeMode (s : SysState) (line : Nat) (m : Mode) : SysState :=
  { s with
    fsel := fun r =>
      if r = fselIndex line then writeField (s.fsel r) (fselField line) m.bits
      else s.fsel r }

/-- Modelled from the spec: `RegisterMap.read_mode(line) -> Mode` — extract
    the line's 3-bit field and decode it. -/
def readMode (s : SysState) (line : Nat) : Mode :=
  Mode.ofBits (readField (s.fsel (fselIndex line)) (fselField line))

/-- Modelled from the spec: `RegisterMap.set_pull(line, PullUpDown)`; the
    hardware settle-delay control sequence is not observable in this model,
    so the pull state is kept as a per-line latch. -/
def setPull (s : SysState) (line : Nat) (p : PullUpDown) : SysState :=
  { s with pull := fun i => if i = line then p else s.pull i }

/-- The pull-resistor latch of a line, as read back from the modelled
    register state. -/
def readPull (s : SysState) (line : Nat) : PullUpDown := s.pull line

/-- Modelled from the spec: releasing a `Pin` handle (the `Drop` impl in
    `pin.rs`, declared by the crate but not part of this tree). Per the spec:
    "Release ... disarms any interrupt, and — unless the restore-on-release
    flag was disabled — reverts mode to Input, pull to Off"; the checkout
    token is "destroyed when its owning Pin handle is released" (§3), so the
    `PINS_TAKEN` flag is always cleared. -/
def pinRelease (h : PinHandle) (s : SysState) : SysState :=
  let s1 := { s with armed := fun i => if i = h.line then false else s.armed i }
  let s2 :=
    if h.clearOnDrop then setPull (writeMode s1 h.line .Input) h.line .Off
    else s1
  { s2 with pinsTaken := fun i => if i = h.line then false else s2.pinsTaken i }

/-- A cached edge event in the interrupt event loop: the global arrival
    sequence number it was queued under, the line it fired on, and the level
    read when it fired. -/
structure CEvent where
  seq : Nat
  line : Nat
  level : Level
deriving DecidableEq, Repr

/-- Modelled from the spec: the interrupt event loop's bookkeeping
    (`interrupt::EventLoop`, declared by the crate but not part of this
    tree): the FIFO of cached-but-unconsumed edge events over the full
    polling history, and the next global sequence number. -/
structure ELoop where
  cache : List CEvent
  nextSeq : Nat
deriving DecidableEq, Repr

/-- An empty event loop: nothing cached. -/
def ELoop.empty : ELoop := ⟨[], 0⟩

/-- Queue a batch of simultaneously delivered edges: all events of one batch
    share one global sequence number (their mutual order is then resolved by
    ascending line identifier, per the spec's tie-break rule). -/
def cacheEvents (el : ELoop) (evs : List (Nat × Level)) : ELoop :=
  { cache := el.cache ++ evs.map fun lv => ⟨el.nextSeq, lv.1, lv.2⟩
    nextSeq := el.nextSeq + 1 }

/-- The priority order on cached events: strictly earlier sequence number, or
    equal sequence number and strictly smaller line identifier. -/
def CEvent.before (a b : CEvent) : Bool :=
  a.seq < b.seq || (a.seq = b.seq && a.line < b.line)

/-- The earliest cached event whose line is in the requested set: FIFO over
    the full polling history, ties broken by ascending line identifier. -/
def pickEarliest (req : List Nat) : List CEvent → Option CEvent
  | [] => none
  | e :: rest =>
    match pickEarliest req rest with
    | none => if req.contains e.line then some e else none
    | some m =>
      if req.contains e.line && e.before m then some e else some m

/-- The outcome of one `poll` call: `events r` is the `Ok(r)` of the source
    (`r = none` on timeout), `blocked` marks the absent-timeout call that
    blocks indefinitely because no event ever arrives. -/
inductive PollRes where
  | events : Option CEvent → PollRes
  | blocked : PollRes
deriving DecidableEq, Repr

/-- Modelled from the spec: `EventLoop.poll(lines, reset, timeout)` (in
    `interrupt.rs`, declared by the crate but not part of this tree), behind
    `Gpio::poll_interrupts`. If `reset`, cached events for the requested
    lines are discarded first. If a requested line has a cached event, the
    earliest one (FIFO with ascending-line tie-break) is returned and removed
    without touching the multiplexer. Otherwise the multiplexer is waited on:
    `incoming` is the batch of edges that fire before the timeout would
    elapse; they are all cached and the earliest requested one is returned;
    with no qualifying event, a set timeout yields `Ok(None)` and an absent
    timeout blocks. -/
def elPoll (el : ELoop) (req : List Nat) (reset : Bool) (timeout : Option Nat)
    (incoming : List (Nat × Level)) : PollRes × ELoop :=
  let el1 :=
    if reset then { el with cache := el.cache.filter fun e => !req.contains e.line }
    else el
  match pickEarliest req el1.cache with
  | some e => (.events (some e), { el1 with cache := el1.cache.erase e })
  | none =>
    if incoming.isEmpty then
      match timeout with
      | some _ => (.events none, el1)
      | none => (.blocked, el1)
    else
      let el2 := cacheEvents el1 incoming
      match pickEarliest req el2.cache with
      | some e => (.events (some e), { el2 with cache := el2.cache.erase e })
      | none =>
        match timeout with
        | some _ => (.events none, el2)
        | none => (.blocked, el2)

/-! ## The `Gpio::new` / `Drop` race as a transition system

`Gpio::new` performs two atomic accesses to `GPIO_INSTANCED`: the initial
`load` pre-check and the final `compare_and_swap`; between them it builds the
`Gpio` value without touching shared state. A thread is therefore at one of
four program points. -/

/-- Program counter of one thread running `Gpio::new`: before the initial
    load pre-check; after passing it with the `Gpio` value built (about to
    run the final compare-and-swap); finished with `Ok`; finished with
    `Err`. -/
inductive NewPC where
  | start
  | ready
  | doneOk
  | doneErr
deriving DecidableEq, Repr

/-- A state of the concurrent system: the `GPIO_INSTANCED` flag, the number
    of live `Gpio` instances, and the program counters of the threads
    running `Gpio::new`. -/
structure RaceState where
  instanced : Bool
  live : Nat
  threads : List NewPC
deriving DecidableEq, Repr

/-- One atomic step of the interleaved system, straight from `gpio.rs`:
    `precheckFail`/`precheckPass` are the initial `load`; `casWin` is a
    successful final `compare_and_swap` (flag set, instance returned);
    `casLose` is a failed final `compare_and_swap` — the `return
    Err(InstanceExists)` drops the thread's just-built `Gpio`, whose `Drop`
    stores `false` into `GPIO_INSTANCED`; `dropLive` is a caller dropping a
    live instance. -/
inductive RaceStep : RaceState → RaceState → Prop where
  | precheckFail (s : RaceState) (i : Nat) (hpc : s.threads[i]? = some .start)
      (hflag : s.instanced = true) :
      RaceStep s { s with threads := s.threads.set i .doneErr }
  | precheckPass (s : RaceState) (i : Nat) (hpc : s.threads[i]? = some .start)
      (hflag : s.instanced = false) :
      RaceStep s { s with threads := s.threads.set i .ready }
  | casWin (s : RaceState) (i : Nat) (hpc : s.threads[i]? = some .ready)
      (hflag : s.instanced = false) :
      RaceStep s
        { instanced := true, live := s.live + 1, threads := s.threads.set i .doneOk }
  | casLose (s : RaceState) (i : Nat) (hpc : s.threads[i]? = some .ready)
      (hflag : s.instanced = true) :
      RaceStep s { s with instanced := false, threads := s.threads.set i .doneErr }
  | dropLive (s : RaceState) (hlive : 1 ≤ s.live) :
      RaceStep s { s with instanced := false, live := s.live - 1 }

/-- The states reachable from `n` threads all about to call `Gpio::new`, with
    no live instance and the flag clear. -/
inductive RaceReach : RaceState → Prop where
  | init (n : Nat) : RaceReach ⟨false, 0, List.replicate n .start⟩
  | step {s t : RaceState} (h : RaceReach s) (hs : RaceStep s t) : RaceReach t

/-! ## Sequential per-line checkout with ghost token counts

`tokens line` counts the live `Pin` handles for a line; it is ghost state
used to express the "at most one live checkout token per line" invariant. -/

/-- A system state paired with the ghost count of live `Pin` handles per
    line. -/
structure PState where
  sys : SysState
  tokens : Nat → Nat

/-- Increment a per-line counter. -/
def bump (f : Nat → Nat) (line : Nat) : Nat → Nat :=
  fun i => if i = line then f i + 1 else f i

/-- Decrement a per-line counter. -/
def unbump (f : Nat → Nat) (line : Nat) : Nat → Nat :=
  fun i => if i = line then f i - 1 else f i

/-- The states reachable by any sequence of successful checkouts
    (`Gpio::get`), `Pin` releases (with either value of the restore flag),
    `Gpio::new` calls (any environment) and `Gpio` drops, starting from the
    clean process state. A release step requires a live handle for the line,
    since a Rust `Pin` value is dropped at most once. -/
inductive PReach : PState → Prop where
  | init : PReach ⟨initSys, fun _ => 0⟩
  | get {p : PState} (pin : Nat) (h : PReach p)
      (hs : (gpioGet p.sys pin).1.isSome = true) :
      PReach ⟨(gpioGet p.sys pin).2, bump p.tokens pin⟩
  | release {p : PState} (line : Nat) (b : Bool) (h : PReach p)
      (hl : 1 ≤ p.tokens line) :
      PReach ⟨pinRelease ⟨line, b⟩ p.sys, unbump p.tokens line⟩
  | gnew {p : PState} (env : Env) (h : PReach p) :
      PReach ⟨(gpioNew env p.sys).2, p.tokens⟩
  | gdrop {p : PState} (h : PReach p) :
      PReach ⟨gpioDrop p.sys, p.tokens⟩

/-! ## Helper lemmas -/

theorem gpioNew_pinsTaken (env : Env) (s : SysState) :
    ((gpioNew env s).2).pinsTaken = s.pinsTaken := by
  cases hinst : s.instanced <;> cases hd : env.driverErr <;>
    cases he : env.eventLoopErr <;> cases hm : env.memErr <;>
      simp [gpioNew, hinst, hd, he, hm]

theorem gpioNew_ok (env : Env) (s : SysState) (hinst : s.instanced = false)
    (h1 : env.driverErr = none) (h2 : env.eventLoopErr = none)
    (h3 : env.memErr = none) :
    gpioNew env s = (.ok (), { s with instanced := true }) := by
  simp [gpioNew, hinst, h1, h2, h3]

theorem pinRelease_pinsTaken (h : PinHandle) (s : SysState) (i : Nat) :
    (pinRelease h s).pinsTaken i = if i = h.line then false else s.pinsTaken i := by
  unfold pinRelease
  by_cases hc : h.clearOnDrop <;> simp [hc, setPull, writeMode]

/-! ## Claim theorems (error handling around construction) -/

/-- Claim C9: `Gpio::get` with an out-of-range pin number returns `None`
    before touching `PINS_TAKEN`: the whole state, and in particular every
    `PINS_TAKEN` entry, is returned unchanged. -/
theorem get_out_of_range_leaves_registry (s : SysState) (pin : Nat)
    (h : pinMAX ≤ pin) :
    gpioGet s pin = (none, s) ∧
      ∀ i, ((gpioGet s pin).2).pinsTaken i = s.pinsTaken i := by
  constructor
  · simp [gpioGet, h]
  · intro i
    simp [gpioGet, h]

/-- Witness for C9: pin 54 is out of range on a fresh state. -/
theorem get_out_of_range_leaves_registry_witness :
    gpioGet initSys 54 = (none, initSys) ∧
      ∀ i, ((gpioGet initSys 54).2).pinsTaken i = initSys.pinsTaken i :=
  get_out_of_range_leaves_registry initSys 54 (by decide)

/-- Claim C2: calling `Gpio::new` while an instance is live (sequentially:
    `GPIO_INSTANCED` set) returns `Err(InstanceExists)` and leaves the state
    untouched (no facade is constructed); after the live instance is dropped,
    a subsequent `Gpio::new` succeeds, provided the device files open
    successfully. -/
theorem new_while_instanced_err_then_release_ok (env env2 : Env) (s : SysState)
    (hlive : s.instanced = true) (h1 : env2.driverErr = none)
    (h2 : env2.eventLoopErr = none) (h3 : env2.memErr = none) :
    gpioNew env s = (.error .InstanceExists, s) ∧
      (gpioNew env2 (gpioDrop s)).1 = .ok () := by
  constructor
  · simp [gpioNew, hlive]
  · rw [gpioNew_ok env2 (gpioDrop s) rfl h1 h2 h3]

/-- Witness for C2 on a concrete live state. -/
theorem new_while_instanced_err_then_release_ok_witness :
    gpioNew Env.ok { initSys with instanced := true } =
        (.error .InstanceExists, { initSys with instanced := true }) ∧
      (gpioNew Env.ok (gpioDrop { initSys with instanced := true })).1 = .ok () :=
  new_while_instanced_err_then_release_ok Env.ok Env.ok
    { initSys with instanced := true } rfl rfl rfl rfl

/-- Claim C10: if `Gpio::new` fails while locating the character-device
    driver, constructing the interrupt event loop, or mapping the GPIO
    registers, it fails with an error, the process state — and in particular
    `GPIO_INSTANCED` — is left exactly as it was, and a later `Gpio::new`
    with working devices still succeeds. -/
theorem new_failure_leaves_flag_clear (env env2 : Env) (s : SysState)
    (hni : s.instanced = false)
    (hfail : env.driverErr ≠ none ∨ env.eventLoopErr ≠ none ∨ env.memErr ≠ none)
    (h1 : env2.driverErr = none) (h2 : env2.eventLoopErr = none)
    (h3 : env2.memErr = none) :
    (∃ e, (gpioNew env s).1 = .error e) ∧ (gpioNew env s).2 = s ∧
      (gpioNew env2 (gpioNew env s).2).1 = .ok () := by
  have hmain : (∃ e, (gpioNew env s).1 = .error e) ∧ (gpioNew env s).2 = s := by
    cases hd : env.driverErr with
    | some e => exact ⟨⟨e, by simp [gpioNew, hni, hd]⟩, by simp [gpioNew, hni, hd]⟩
    | none =>
      cases he : env.eventLoopErr with
      | some e => exact ⟨⟨e, by simp [gpioNew, hni, hd, he]⟩, by simp [gpioNew, hni, hd, he]⟩
      | none =>
        cases hm : env.memErr with
        | some e =>
          exact ⟨⟨e, by simp [gpioNew, hni, hd, he, hm]⟩, by simp [gpioNew, hni, hd, he, hm]⟩
        | none => simp [hd, he, hm] at hfail
  refine ⟨hmain.1, hmain.2, ?_⟩
  rw [hmain.2, gpioNew_ok env2 s hni h1 h2 h3]

/-- Witness for C10: the driver lookup fails on a fresh state. -/
theorem new_failure_leaves_flag_clear_witness :
    (∃ e, (gpioNew ⟨some .Io, none, none⟩ initSys).1 = .error e) ∧
      (gpioNew ⟨some .Io, none, none⟩ initSys).2 = initSys ∧
      (gpioNew Env.ok (gpioNew ⟨some .Io, none, none⟩ initSys).2).1 = .ok () :=
  new_failure_leaves_flag_clear ⟨some .Io, none, none⟩ Env.ok initSys rfl
    (Or.inl (by simp)) rfl rfl rfl

/-- Claim C1 (refuting trace): from three threads about to call `Gpio::new`
    on a clean state, the interleaving "T1 and T2 both pass the load
    pre-check; T1's compare-and-swap wins; T2's loses, and T2's
    `return Err(InstanceExists)` drops its just-built `Gpio`, whose `Drop`
    stores `false` into `GPIO_INSTANCED`; T3 then runs `Gpio::new` to
    completion and succeeds" reaches a state with TWO live `Gpio` instances
    (`live = 2`, threads `[doneOk, doneErr, doneOk]`), contradicting the
    claimed invariant that at most one live instance exists and that the
    losing construction leaves the winner's claim intact. -/
theorem gpio_new_race_two_live_instances :
    RaceReach ⟨true, 2, [.doneOk, .doneErr, .doneOk]⟩ := by
  have h0 : RaceReach ⟨false, 0, [.start, .start, .start]⟩ := RaceReach.init 3
  have h1 : RaceReach ⟨false, 0, [.ready, .start, .start]⟩ :=
    h0.step (RaceStep.precheckPass _ 0 rfl rfl)
  have h2 : RaceReach ⟨false, 0, [.ready, .ready, .start]⟩ :=
    h1.step (RaceStep.precheckPass _ 1 rfl rfl)
  have h3 : RaceReach ⟨true, 1, [.doneOk, .ready, .start]⟩ :=
    h2.step (RaceStep.casWin _ 0 rfl rfl)
  have h4 : RaceReach ⟨false, 1, [.doneOk, .doneErr, .start]⟩ :=
    h3.step (RaceStep.casLose _ 1 rfl rfl)
  have h5 : RaceReach ⟨false, 1, [.doneOk, .doneErr, .ready]⟩ :=
    h4.step (RaceStep.precheckPass _ 2 rfl rfl)
  exact h5.step (RaceStep.casWin _ 2 rfl rfl)

/-! ## Per-line checkout -/

/-- Claim C3: `Gpio::get` returns `None` for out-of-range pin numbers; for a
    valid, free pin it returns a fresh handle and marks the line taken; a
    second `get` for the same line then returns `None` (as does `get` on any
    state in which the line is taken); and after the handle is released a
    further `get` for that line succeeds again. -/
theorem get_checkout_exclusive (s : SysState) (pin : Nat)
    (hp : pin < pinMAX) (hfree : s.pinsTaken pin = false) :
    (∀ (t : SysState) (q : Nat), pinMAX ≤ q → (gpioGet t q).1 = none) ∧
      gpioGet s pin =
        (some ⟨pin, true⟩,
          { s with pinsTaken := fun i => if i = pin then true else s.pinsTaken i }) ∧
      (∀ t : SysState, t.pinsTaken pin = true → (gpioGet t pin).1 = none) ∧
      (gpioGet (gpioGet s pin).2 pin).1 = none ∧
      (gpioGet (pinRelease ⟨pin, true⟩ (gpioGet s pin).2) pin).1 =
        some ⟨pin, true⟩ := by
  have hnle : ¬ pinMAX ≤ pin := Nat.not_le.mpr hp
  have hget : gpioGet s pin =
      (some ⟨pin, true⟩,
        { s with pinsTaken := fun i => if i = pin then true else s.pinsTaken i }) := by
    simp [gpioGet, hnle, hfree]
  refine ⟨?_, hget, ?_, ?_, ?_⟩
  · intro t q hq
    simp [gpioGet, hq]
  · intro t ht
    simp [gpioGet, ht]
  · rw [hget]
    simp [gpioGet, hnle]
  · rw [hget]
    have hrel : (pinRelease ⟨pin, true⟩
        { s with pinsTaken := fun i => if i = pin then true else s.pinsTaken i }).pinsTaken
          pin = false := by
      rw [pinRelease_pinsTaken]
      simp
    simp only [gpioGet]
    rw [if_neg hnle, if_neg (by rw [hrel]; simp)]

/-- Witness for C3 at pin 5 on a fresh state. -/
theorem get_checkout_exclusive_witness :
    (∀ (t : SysState) (q : Nat), pinMAX ≤ q → (gpioGet t q).1 = none) ∧
      gpioGet initSys 5 =
        (some ⟨5, true⟩,
          { initSys with
            pinsTaken := fun i => if i = 5 then true else initSys.pinsTaken i }) ∧
      (∀ t : SysState, t.pinsTaken 5 = true → (gpioGet t 5).1 = none) ∧
      (gpioGet (gpioGet initSys 5).2 5).1 = none ∧
      (gpioGet (pinRelease ⟨5, true⟩ (gpioGet initSys 5).2) 5).1 =
        some ⟨5, true⟩ :=
  get_checkout_exclusive initSys 5 (by decide) rfl

/-- Claim C4: in every reachable state of the sequential checkout system, at
    most one live checkout token exists per line, and a live token implies
    the line is marked taken; dropping a `Gpio` does not clear the shared
    `PINS_TAKEN` registry; and a line whose handle is live cannot be
    re-claimed through a newly constructed `Gpio` (drop the old facade,
    construct a new one: `get` on a taken line still returns `None`). -/
theorem line_exclusivity_process_wide (p : PState) (h : PReach p) :
    (∀ line, p.tokens line ≤ 1) ∧
      (∀ line, 1 ≤ p.tokens line → p.sys.pinsTaken line = true) ∧
      (∀ t : SysState, (gpioDrop t).pinsTaken = t.pinsTaken) ∧
      (∀ (t : SysState) (env : Env) (line : Nat), t.pinsTaken line = true →
        (gpioGet (gpioNew env (gpioDrop t)).2 line).1 = none) := by
  have hinv : ∀ line, p.tokens line ≤ 1 ∧
      (1 ≤ p.tokens line → p.sys.pinsTaken line = true) := by
    induction h with
    | init => intro line; simp [initSys]
    | @get p pin h hs ih =>
      have hle : ¬ pinMAX ≤ pin := by
        intro hle
        simp [gpioGet, hle] at hs
      have htk : p.sys.pinsTaken pin = false := by
        cases htkv : p.sys.pinsTaken pin with
        | false => rfl
        | true => simp [gpioGet, hle, htkv] at hs
      intro line
      rcases ih pin with ⟨ih1, ih2⟩
      have hz : p.tokens pin = 0 := by
        by_contra hnz
        have := ih2 (Nat.one_le_iff_ne_zero.mpr hnz)
        rw [this] at htk
        exact Bool.noConfusion htk
      have hget2 : (gpioGet p.sys pin).2 =
          { p.sys with
            pinsTaken := fun i => if i = pin then true else p.sys.pinsTaken i } := by
        simp [gpioGet, hle, htk]
      rcases ih line with ⟨jl1, jl2⟩
      by_cases hl : line = pin
      · subst hl
        refine ⟨by simp [bump, hz], fun _ => ?_⟩
        rw [hget2]
        simp
      · refine ⟨by simpa [bump, hl] using jl1, fun h1 => ?_⟩
        rw [hget2]
        simp only [SysState.pinsTaken]
        simp [hl]
        exact jl2 (by simpa [bump, hl] using h1)
    | @release p line b h hl ih =>
      intro l
      rcases ih l with ⟨jl1, jl2⟩
      by_cases hll : l = line
      · subst hll
        refine ⟨by simp [unbump]; omega, fun h1 => ?_⟩
        exfalso
        simp [unbump] at h1
        omega
      · refine ⟨by simpa [unbump, hll] using jl1, fun h1 => ?_⟩
        rw [pinRelease_pinsTaken]
        simp only [hll, if_false]
        exact jl2 (by simpa [unbump, hll] using h1)
    | @gnew p env h ih =>
      intro l
      rcases ih l with ⟨jl1, jl2⟩
      refine ⟨jl1, fun h1 => ?_⟩
      rw [gpioNew_pinsTaken]
      exact jl2 h1
    | @gdrop p h ih =>
      intro l
      rcases ih l with ⟨jl1, jl2⟩
      exact ⟨jl1, fun h1 => jl2 h1⟩
  refine ⟨fun line => (hinv line).1, fun line => (hinv line).2, fun t => rfl, ?_⟩
  intro t env line htaken
  have h2 : ((gpioNew env (gpioDrop t)).2).pinsTaken line = true := by
    rw [gpioNew_pinsTaken]
    exact htaken
  simp [gpioGet, h2]

/-- Witness for C4 on the reachable state after one successful checkout of
    pin 0. -/
theorem line_exclusivity_process_wide_witness :
    (∀ line, (bump (fun _ => 0) 0) line ≤ 1) ∧
      (∀ line, 1 ≤ (bump (fun _ => 0) 0) line →
        ((gpioGet initSys 0).2).pinsTaken line = true) ∧
      (∀ t : SysState, (gpioDrop t).pinsTaken = t.pinsTaken) ∧
      (∀ (t : SysState) (env : Env) (line : Nat), t.pinsTaken line = true →
        (gpioGet (gpioNew env (gpioDrop t)).2 line).1 = none) :=
  line_exclusivity_process_wide ⟨(gpioGet initSys 0).2, bump (fun _ => 0) 0⟩
    (PReach.get 0 PReach.init rfl)

/-! ## Packed 3-bit fields: read-modify-write arithmetic -/

theorem Mode.bits_lt (m : Mode) : m.bits < 8 := by
  cases m <;> decide

theorem Mode.ofBits_bits (m : Mode) : Mode.ofBits m.bits = m := by
  cases m <;> rfl

theorem fieldAux_mid (A b C M : Nat) (hA : A < M) (hM : 0 < M) :
    (A + b * M + C * (M * 8)) / M % 8 = b % 8 := by
  have h1 : A + b * M + C * (M * 8) = A + (b + C * 8) * M := by ring
  rw [h1, Nat.add_mul_div_right _ _ hM, Nat.div_eq_of_lt hA, Nat.zero_add,
    Nat.add_mul_mod_self_right]

theorem fieldAux_low (b C M N w : Nat) (hdvd : N * 8 ∣ M) :
    (w % M + b * M + C * (M * 8)) / N % 8 = w / N % 8 := by
  obtain ⟨t, ht⟩ := hdvd
  have h1 : w % M + b * M + C * (M * 8) = w % M + (N * 8) * (b * t + C * (t * 8)) := by
    rw [ht]; ring
  rw [← Nat.mod_mul_right_div_self, ← Nat.mod_mul_right_div_self, h1,
    Nat.add_mul_mod_self_left, Nat.mod_mod_of_dvd w ⟨t, ht⟩]

theorem fieldAux_high (b M N w : Nat) (hb : b < 8) (hM : 0 < M)
    (hdvd : M * 8 ∣ N) :
    (w % M + b * M + w / (M * 8) * (M * 8)) / N % 8 = w / N % 8 := by
  obtain ⟨t, ht⟩ := hdvd
  have hM8 : 0 < M * 8 := by positivity
  have hD : w % M + b * M < M * 8 := by
    have h1 : w % M < M := Nat.mod_lt w hM
    have h2 : b * M ≤ 7 * M := Nat.mul_le_mul_right M (by omega)
    omega
  have h1 : (w % M + b * M + w / (M * 8) * (M * 8)) / N = w / (M * 8) / t := by
    rw [ht, ← Nat.div_div_eq_div_mul, Nat.add_mul_div_right _ _ hM8,
      Nat.div_eq_of_lt hD, Nat.zero_add]
  have h2 : w / N = w / (M * 8) / t := by
    rw [ht, ← Nat.div_div_eq_div_mul]
  rw [h1, h2]

theorem readField_writeField_self (w k b : Nat) (hb : b < 8) :
    readField (writeField w k b) k = b := by
  have h8 : 0 < (8:ℕ) ^ k := pow_pos (by norm_num) k
  unfold readField writeField
  rw [pow_succ]
  rw [fieldAux_mid (w % 8 ^ k) b (w / (8 ^ k * 8)) (8 ^ k) (Nat.mod_lt w h8) h8,
    Nat.mod_eq_of_lt hb]

theorem readField_writeField_other (w k j b : Nat) (hb : b < 8) (hne : j ≠ k) :
    readField (writeField w k b) j = readField w j := by
  unfold readField writeField
  rw [pow_succ]
  rcases Nat.lt_or_ge j k with hlt | hge
  · have hdvd : (8:ℕ) ^ j * 8 ∣ 8 ^ k := by
      rw [← pow_succ]
      exact pow_dvd_pow 8 (by omega)
    exact fieldAux_low b (w / (8 ^ k * 8)) (8 ^ k) (8 ^ j) w hdvd
  · have hgt : k < j := lt_of_le_of_ne hge (Ne.symm hne)
    have hdvd : (8:ℕ) ^ k * 8 ∣ 8 ^ j := by
      rw [← pow_succ]
      exact pow_dvd_pow 8 (by omega)
    exact fieldAux_high b (8 ^ k) (8 ^ j) w hb (pow_pos (by norm_num) k) hdvd

theorem writeMode_fsel (s : SysState) (line : Nat) (m : Mode) (r : Nat) :
    (writeMode s line m).fsel r =
      if r = fselIndex line then writeField (s.fsel r) (fselField line) m.bits
      else s.fsel r := rfl

theorem readMode_def (s : SysState) (line : Nat) :
    readMode s line =
      Mode.ofBits (readField (s.fsel (fselIndex line)) (fselField line)) := rfl

theorem readMode_writeMode_self (s : SysState) (line : Nat) (m : Mode) :
    readMode (writeMode s line m) line = m := by
  rw [readMode_def, writeMode_fsel, if_pos rfl,
    readField_writeField_self _ _ _ (Mode.bits_lt m), Mode.ofBits_bits]

theorem readMode_writeMode_other (s : SysState) (line nline : Nat) (nm : Mode)
    (hne : nline ≠ line) :
    readMode (writeMode s nline nm) line = readMode s line := by
  rw [readMode_def, readMode_def, writeMode_fsel]
  by_cases hreg : fselIndex line = fselIndex nline
  · have hfield : fselField line ≠ fselField nline := by
      simp only [fselIndex, fselField, linesPerReg] at hreg ⊢
      omega
    rw [if_pos hreg, hreg,
      readField_writeField_other _ _ _ _ (Mode.bits_lt nm) hfield]
  · rw [if_neg hreg]

/-- Claim C5: writing a mode to a line and reading it back returns the same
    mode, also when a neighboring line — in particular one sharing the same
    packed register word — is changed to a different mode in between (no bit
    bleed); the eight `Mode` discriminants are pairwise distinct 3-bit
    values, and decode after encode is the identity. -/
theorem mode_roundtrip_no_bit_bleed (s : SysState) (line nline : Nat)
    (m nm : Mode) (hl : line < pinMAX) (hn : nline < pinMAX)
    (hne : nline ≠ line) :
    readMode (writeMode s line m) line = m ∧
      readMode (writeMode (writeMode s line m) nline nm) line = m ∧
      (∀ mo : Mode, Mode.ofBits mo.bits = mo) ∧
      (∀ m1 m2 : Mode, m1.bits = m2.bits → m1 = m2) ∧
      (∀ mo : Mode, mo.bits < 8) := by
  refine ⟨readMode_writeMode_self s line m, ?_, Mode.ofBits_bits, ?_, Mode.bits_lt⟩
  · rw [readMode_writeMode_other _ _ _ _ hne, readMode_writeMode_self]
  · intro m1 m2 hbits
    have h1 := Mode.ofBits_bits m1
    rw [hbits, Mode.ofBits_bits m2] at h1
    exact h1.symm

/-- Witness for C5: lines 12 and 13 share the second GPFSEL word. -/
theorem mode_roundtrip_no_bit_bleed_witness :
    readMode (writeMode initSys 12 .Alt3) 12 = .Alt3 ∧
      readMode (writeMode (writeMode initSys 12 .Alt3) 13 .Output) 12 = .Alt3 ∧
      (∀ mo : Mode, Mode.ofBits mo.bits = mo) ∧
      (∀ m1 m2 : Mode, m1.bits = m2.bits → m1 = m2) ∧
      (∀ mo : Mode, mo.bits < 8) :=
  mode_roundtrip_no_bit_bleed initSys 12 13 .Alt3 .Output (by decide) (by decide)
    (by decide)

/-! ## Pin release -/

/-- Claim C8: releasing a `Pin` handle with restore-on-release enabled (the
    default) disarms its line's interrupt, reverts the mode to `Input` and
    the pull to `Off`, and releases the checkout token, as read back from the
    modelled register state directly after release; with the flag disabled,
    the line's driven configuration (function-select words and pull latches)
    is left unchanged, while the interrupt is still disarmed. -/
theorem pin_release_restores (s : SysState) (line : Nat) :
    readMode (pinRelease ⟨line, true⟩ s) line = .Input ∧
      readPull (pinRelease ⟨line, true⟩ s) line = .Off ∧
      (pinRelease ⟨line, true⟩ s).armed line = false ∧
      (pinRelease ⟨line, true⟩ s).pinsTaken line = false ∧
      (pinRelease ⟨line, false⟩ s).fsel = s.fsel ∧
      (pinRelease ⟨line, false⟩ s).pull = s.pull ∧
      (pinRelease ⟨line, false⟩ s).armed line = false := by
  refine ⟨?_, ?_, ?_, ?_, ?_, ?_, ?_⟩
  · show readMode (setPull (writeMode
      { s with armed := fun i => if i = line then false else s.armed i }
      line .Input) line .Off) line = .Input
    rw [show ∀ (t : SysState) (p : PullUpDown), readMode (setPull t line p) line
        = readMode t line from fun t p => rfl]
    exact readMode_writeMode_self _ line .Input
  · show (if line = line then PullUpDown.Off else s.pull line) = PullUpDown.Off
    rw [if_pos rfl]
  · show (if line = line then false else s.armed line) = false
    rw [if_pos rfl]
  · rw [pinRelease_pinsTaken]
    simp
  · rfl
  · rfl
  · show (if line = line then false else s.armed line) = false
    rw [if_pos rfl]

/-! ## Interrupt event loop: cached-event selection -/

theorem CEvent.before_irrefl (e : CEvent) : e.before e = false := by
  simp [CEvent.before]

theorem CEvent.before_trans {a b c : CEvent} (h1 : a.before b = true)
    (h2 : b.before c = true) : a.before c = true := by
  simp only [CEvent.before, Bool.or_eq_true, Bool.and_eq_true,
    decide_eq_true_eq] at h1 h2 ⊢
  omega

theorem pickEarliest_none {req : List Nat} {l : List CEvent}
    (h : pickEarliest req l = none) :
    ∀ x ∈ l, req.contains x.line = false := by
  induction l with
  | nil => simp
  | cons a rest ih =>
    cases hp : pickEarliest req rest with
    | none =>
      simp only [pickEarliest, hp] at h
      cases hc : req.contains a.line with
      | true => rw [if_pos hc] at h; exact absurd h (by simp)
      | false =>
        intro x hx
        rcases List.mem_cons.mp hx with rfl | hx'
        · exact hc
        · exact ih hp x hx'
    | some m =>
      simp only [pickEarliest, hp] at h
      cases hcond : (req.contains a.line && a.before m) <;>
        rw [hcond] at h <;> simp at h

theorem pickEarliest_eq_none {req : List Nat} {l : List CEvent}
    (h : ∀ x ∈ l, req.contains x.line = false) : pickEarliest req l = none := by
  induction l with
  | nil => rfl
  | cons a rest ih =>
    simp only [pickEarliest]
    rw [ih fun x hx => h x (List.mem_cons_of_mem a hx),
      h a (List.mem_cons_self a rest)]
    simp

theorem pickEarliest_some {req : List Nat} {l : List CEvent} {e : CEvent}
    (h : pickEarliest req l = some e) :
    e ∈ l ∧ req.contains e.line = true ∧
      ∀ x ∈ l, req.contains x.line = true → x.before e = false := by
  induction l generalizing e with
  | nil => simp [pickEarliest] at h
  | cons a rest ih =>
    cases hp : pickEarliest req rest with
    | none =>
      simp only [pickEarliest, hp] at h
      cases hc : req.contains a.line with
      | false => rw [hc] at h; simp at h
      | true =>
        rw [if_pos hc] at h
        injection h with he
        subst he
        refine ⟨List.mem_cons_self a rest, hc, ?_⟩
        intro x hx hcx
        rcases List.mem_cons.mp hx with rfl | hx'
        · exact CEvent.before_irrefl _
        · rw [pickEarliest_none hp x hx'] at hcx
          exact Bool.noConfusion hcx
    | some m =>
      simp only [pickEarliest, hp] at h
      obtain ⟨hm_mem, hm_c, hm_min⟩ := ih hp
      cases hcond : (req.contains a.line && a.before m) with
      | true =>
        rw [if_pos hcond] at h
        injection h with he
        subst he
        rcases Bool.and_eq_true_iff.mp hcond with ⟨hc, hab⟩
        refine ⟨List.mem_cons_self a rest, hc, ?_⟩
        intro x hx hcx
        rcases List.mem_cons.mp hx with rfl | hx'
        · exact CEvent.before_irrefl _
        · cases hv : x.before a with
          | false => rfl
          | true =>
            have ht := CEvent.before_trans hv hab
            rw [hm_min x hx' hcx] at ht
            exact Bool.noConfusion ht
      | false =>
        rw [if_neg (by rw [hcond]; simp)] at h
        injection h with he
        subst he
        refine ⟨List.mem_cons_of_mem a hm_mem, hm_c, ?_⟩
        intro x hx hcx
        rcases List.mem_cons.mp hx with rfl | hx'
        · rw [hcx, Bool.true_and] at hcond
          exact hcond
        · exact hm_min x hx' hcx

/-- Claim C6: with `reset = false`, if any requested line has a cached
    unconsumed event, `poll` returns the earliest one — FIFO by global
    arrival sequence, ties among simultaneously cached events broken by
    ascending line identifier — removes exactly that event, and never
    consults the multiplexer (the result is independent of any edges that
    would arrive during the call); and in the two-edge scenario — two edges
    queued for two different lines while neither was polled — two
    consecutive polls over both lines return first the earlier-queued edge
    and then the other, with no event lost or duplicated. -/
theorem poll_returns_earliest_cached (el : ELoop) (req : List Nat)
    (t : Option Nat) (inc : List (Nat × Level)) (e0 : CEvent)
    (he : e0 ∈ el.cache) (hr : req.contains e0.line = true)
    (a b : Nat) (va vb : Level) (hab : a ≠ b) :
    (∃ e, elPoll el req false t inc =
        (.events (some e), { el with cache := el.cache.erase e }) ∧
        e ∈ el.cache ∧ req.contains e.line = true ∧
        ∀ x ∈ el.cache, req.contains x.line = true → x.before e = false) ∧
      elPoll el req false t inc = elPoll el req false t [] ∧
      elPoll (cacheEvents (cacheEvents ELoop.empty [(a, va)]) [(b, vb)])
          [a, b] false t [] =
        (.events (some ⟨0, a, va⟩), ⟨[⟨1, b, vb⟩], 2⟩) ∧
      elPoll (⟨[⟨1, b, vb⟩], 2⟩ : ELoop) [a, b] false t [] =
        (.events (some ⟨1, b, vb⟩), ⟨[], 2⟩) := by
  have hpick : ∃ e, pickEarliest req el.cache = some e := by
    cases hp : pickEarliest req el.cache with
    | none =>
      rw [pickEarliest_none hp e0 he] at hr
      exact Bool.noConfusion hr
    | some e => exact ⟨e, rfl⟩
  obtain ⟨e, hp⟩ := hpick
  obtain ⟨hmem, hcont, hmin⟩ := pickEarliest_some hp
  have hba : (b == a) = false := beq_eq_false_iff_ne.mpr (Ne.symm hab)
  have hscene1 : pickEarliest [a, b]
      [(⟨0, a, va⟩ : CEvent), ⟨1, b, vb⟩] = some ⟨0, a, va⟩ := by
    simp [pickEarliest, List.contains, hba, CEvent.before]
  have hscene2 : pickEarliest [a, b] [(⟨1, b, vb⟩ : CEvent)] = some ⟨1, b, vb⟩ := by
    simp [pickEarliest, List.contains, hba]
  refine ⟨⟨e, ?_, hmem, hcont, hmin⟩, ?_, ?_, ?_⟩
  · simp [elPoll, hp]
  · simp [elPoll, hp]
  · have : cacheEvents (cacheEvents ELoop.empty [(a, va)]) [(b, vb)] =
        ⟨[⟨0, a, va⟩, ⟨1, b, vb⟩], 2⟩ := by
      simp [cacheEvents, ELoop.empty]
    rw [this]
    simp [elPoll, hscene1, List.erase]
  · simp [elPoll, hscene2, List.erase]

/-- Witness for C6: one event cached for line 3; scenario lines 1 and 2. -/
theorem poll_returns_earliest_cached_witness :
    (∃ e, elPoll ⟨[⟨0, 3, .High⟩], 1⟩ [3] false (some 0) [] =
        (.events (some e),
          { (⟨[⟨0, 3, .High⟩], 1⟩ : ELoop) with
            cache := ([⟨0, 3, .High⟩] : List CEvent).erase e }) ∧
        e ∈ ([⟨0, 3, .High⟩] : List CEvent) ∧ ([3] : List Nat).contains e.line = true ∧
        ∀ x ∈ ([⟨0, 3, .High⟩] : List CEvent),
          ([3] : List Nat).contains x.line = true → x.before e = false) ∧
      elPoll ⟨[⟨0, 3, .High⟩], 1⟩ [3] false (some 0) [] =
        elPoll ⟨[⟨0, 3, .High⟩], 1⟩ [3] false (some 0) [] ∧
      elPoll (cacheEvents (cacheEvents ELoop.empty [(1, .Low)]) [(2, .High)])
          [1, 2] false (some 0) [] =
        (.events (some ⟨0, 1, .Low⟩), ⟨[⟨1, 2, .High⟩], 2⟩) ∧
      elPoll (⟨[⟨1, 2, .High⟩], 2⟩ : ELoop) [1, 2] false (some 0) [] =
        (.events (some ⟨1, 2, .High⟩), ⟨[], 2⟩) :=
  poll_returns_earliest_cached ⟨[⟨0, 3, .High⟩], 1⟩ [3] (some 0) [] ⟨0, 3, .High⟩
    (by simp) (by decide) 1 2 .Low .High (by decide)

theorem elPoll_reset_eq (el : ELoop) (req : List Nat) (t : Option Nat)
    (inc : List (Nat × Level)) :
    elPoll el req true t inc =
      elPoll { el with cache := el.cache.filter fun e => !req.contains e.line }
        req false t inc := rfl

theorem elPoll_none_cached_some (el1 : ELoop) (req : List Nat) (t : Nat)
    (hpick : pickEarliest req el1.cache = none) :
    elPoll el1 req false (some t) [] = (.events none, el1) := by
  simp [elPoll, hpick]

theorem elPoll_none_cached_block (el1 : ELoop) (req : List Nat)
    (hpick : pickEarliest req el1.cache = none) :
    elPoll el1 req false none [] = (.blocked, el1) := by
  simp [elPoll, hpick]

/-- Claim C7: when no cached event exists for the requested lines and no
    edge arrives before the timeout elapses, `poll` returns `Ok(None)`; in
    particular `poll(reset = true, timeout = 0)` with no pending edge
    returns `Ok(None)` for any cache contents, and an absent timeout makes
    the call block indefinitely. -/
theorem poll_timeout_returns_none (el : ELoop) (req : List Nat) (t : Nat)
    (reset : Bool) (hnc : ∀ x ∈ el.cache, req.contains x.line = false) :
    (elPoll el req reset (some t) []).1 = .events none ∧
      (elPoll el req reset none []).1 = .blocked ∧
      (∀ (el2 : ELoop) (t2 : Nat),
        (elPoll el2 req true (some t2) []).1 = .events none) ∧
      (∀ el2 : ELoop, (elPoll el2 req true none []).1 = .blocked) := by
  have hfilter : ∀ el2 : ELoop,
      pickEarliest req (el2.cache.filter fun e => !req.contains e.line) = none := by
    intro el2
    apply pickEarliest_eq_none
    intro x hx
    have h2 := (List.mem_filter.mp hx).2
    simpa using h2
  have hplain : pickEarliest req el.cache = none := pickEarliest_eq_none hnc
  refine ⟨?_, ?_, ?_, ?_⟩
  · cases reset with
    | false => rw [elPoll_none_cached_some el req t hplain]
    | true => rw [elPoll_reset_eq, elPoll_none_cached_some _ req t (hfilter el)]
  · cases reset with
    | false => rw [elPoll_none_cached_block el req hplain]
    | true => rw [elPoll_reset_eq, elPoll_none_cached_block _ req (hfilter el)]
  · intro el2 t2
    rw [elPoll_reset_eq, elPoll_none_cached_some _ req t2 (hfilter el2)]
  · intro el2
    rw [elPoll_reset_eq, elPoll_none_cached_block _ req (hfilter el2)]

/-- Witness for C7 on an empty cache and line 3. -/
theorem poll_timeout_returns_none_witness :
    (elPoll ELoop.empty [3] true (some 0) []).1 = .events none ∧
      (elPoll ELoop.empty [3] true none []).1 = .blocked ∧
      (∀ (el2 : ELoop) (t2 : Nat),
        (elPoll el2 [3] true (some t2) []).1 = .events none) ∧
      (∀ el2 : ELoop, (elPoll el2 [3] true none []).1 = .blocked) :=
  poll_timeout_returns_none ELoop.empty [3] 0 true (by simp [ELoop.empty])

end Rppal
